import Mathlib

/-!
Verification development for the ATACtools peak-selection pipeline.

The development shallowly embeds the three core components of the
repository:

* `src/atactools/peaks/intervals.py` — the `Interval`/`Bed6` data model,
  the natural chromosome key `prep_chrom_comp`, the `__lt__` ordering and
  the `intersect` overlap test;
* `src/atactools/peaks/normalize.py` — `extract_scores`, `set_scores`,
  `regular_pointmap`, `normalize_peaks_map`, `normalize_peaks_none`;
* `src/scripts/selectFWPeaks.py` — the record parsing and the greedy
  single-pass cluster/select loop of `main`.

Modelling conventions:

* Machine integers are `Int`/`Nat`; scores are exact rationals `Rat`.
  Python floats are embedded as exact rationals; the rounding properties
  proved below are pigeonhole-style and do not depend on binary float
  error.
* Python string primitives (`str.split`, `str.isdigit`, `str.lower`,
  lexicographic `<`) are implemented directly on character lists so that
  all of them compute.
* Python's `list.sort` (Timsort) is embedded as the stable insertion
  sort `pySort`; for sorts keyed by a total order (the score sorts) any
  stable sort produces the identical output, and no theorem below
  depends on the element order produced by the non-total genomic
  comparison beyond its being a permutation.
* Fallible code returns `Option`/`Except`; the unconditional
  `normalized_peaks.pop(0)` of `selectFWPeaks.main` is embedded as an
  `Except` error on the empty list (Python raises `IndexError` there).
-/

namespace ATACtools

/-- Pieces produced by `re.split('([0-9]+)', chrom)` after the `recode`
step of `prep_chrom_comp`: digit runs become integers, everything else a
lower-cased string. -/
inductive ChromToken where
  | str (s : String)
  | num (n : Nat)
deriving DecidableEq

/-- Python lexicographic `<` on strings (by code point): the first
differing character decides, a strict prefix is smaller. -/
def charListLt : List Char → List Char → Bool
  | [], [] => false
  | [], _ :: _ => true
  | _ :: _, [] => false
  | a :: as, b :: bs => if a = b then charListLt as bs else decide (a < b)

/-- Python `<` on `str`, via `charListLt` on the character data. -/
def pyStrLt (a b : String) : Bool :=
  charListLt a.data b.data

/-- Python `==` between two list elements of `prep_chrom_comp` output.
Mixed `int`/`str` compare unequal in Python. -/
def tokEq : ChromToken → ChromToken → Bool
  | ChromToken.str a, ChromToken.str b => a == b
  | ChromToken.num a, ChromToken.num b => a == b
  | _, _ => false

/-- Python `<` between two list elements of `prep_chrom_comp` output.
A mixed `int`/`str` comparison raises `TypeError` in Python; it is never
reached when comparing two `prep_chrom_comp` keys at their first
difference, because maximal digit/non-digit runs force equal kinds
there.  The mixed cases are given the value `false` only to make the
function total. -/
def tokLt : ChromToken → ChromToken → Bool
  | ChromToken.num a, ChromToken.num b => a < b
  | ChromToken.str a, ChromToken.str b => pyStrLt a b
  | _, _ => false

/-- Python list `<` (lexicographic: the first non-`==` position decides,
a strict prefix is smaller). -/
def pyListLt : List ChromToken → List ChromToken → Bool
  | [], [] => false
  | [], _ :: _ => true
  | _ :: _, [] => false
  | a :: as, b :: bs => if tokEq a b then pyListLt as bs else tokLt a b

/-- Worker for `re.split('([0-9]+)', s)`: walks the characters keeping
the current run (reversed) and its kind, flushing at kind boundaries.
Like `re.split` with a capturing group it yields the (possibly empty)
text before the first digit run, every digit run, and the (possibly
empty) text after the last one. -/
def splitRunsAux (cur : List Char) (curDig : Bool) : List Char → List String
  | [] => if curDig then [String.mk cur.reverse, ""] else [String.mk cur.reverse]
  | c :: rest =>
    if c.isDigit = curDig then splitRunsAux (c :: cur) curDig rest
    else String.mk cur.reverse :: splitRunsAux [c] c.isDigit rest

/-- `int(substr)` for a digit run: the decimal value of the digits. -/
def digitsVal (s : String) : Nat :=
  s.data.foldl (fun n c => 10 * n + (c.toNat - 48)) 0

/-- The `recode` closure inside `prep_chrom_comp`:
`int(substr) if substr.isdigit() else substr.lower()`
(`str.isdigit` is true exactly for nonempty all-digit strings). -/
def recode (sub : String) : ChromToken :=
  if sub.data ≠ [] && sub.data.all Char.isDigit then ChromToken.num (digitsVal sub)
  else ChromToken.str (String.mk (sub.data.map Char.toLower))

/-- `prep_chrom_comp` from `intervals.py`:
`[recode(sub) for sub in re_split('([0-9]+)', chrom)]`. -/
def prep_chrom_comp (chrom : String) : List ChromToken :=
  (splitRunsAux [] false chrom.data).map recode

/-- The `Bed6` record of `intervals.py` (the `Interval` base fields
`chrom`, `chromStart`, `chromEnd`, `name`, the BED6 additions `score`
and `strand`, and the `norm_score` attribute installed by
`__post_init__` with sentinel `-1`).  Coordinate fields carry the types
declared by the dataclass annotations (`int`); scores are rationals. -/
structure Bed6 where
  chrom : String
  chromStart : Int
  chromEnd : Int
  name : String
  score : Rat
  strand : String
  norm_score : Rat := -1
deriving DecidableEq

/-- `Interval.intersect` exactly as written in `intervals.py` (including
its literal behaviour of returning `True` when the chromosomes differ,
despite the comment above it stating the opposite). -/
def Bed6.intersect (self other : Bed6) : Bool :=
  if self.chrom ≠ other.chrom then true
  else !(decide (other.chromEnd < self.chromStart) || decide (other.chromStart > self.chromEnd))

/-- `Interval.__lt__` from `intervals.py`: natural chromosome key first,
then the interval-algebra comparison on matching chromosomes. -/
def Bed6.lt (self other : Bed6) : Bool :=
  if pyListLt (prep_chrom_comp self.chrom) (prep_chrom_comp other.chrom) then true
  else if pyListLt (prep_chrom_comp other.chrom) (prep_chrom_comp self.chrom) then false
  else decide (self.chromEnd < other.chromStart) ||
    (decide (self.chromStart = other.chromStart) && decide (self.chromEnd < other.chromEnd))

/-- Modelled from the spec: the documented overlap semantics
(`intersects(a, b)` is true iff same chromosome AND the closed ranges
meet), which is also what the comment above `Interval.intersect`
announces.  Kept separate from `Bed6.intersect`, which embeds the
source's literal behaviour, so the two can be compared. -/
def spec_intersects (a b : Bed6) : Bool :=
  a.chrom == b.chrom &&
    !(decide (b.chromEnd < a.chromStart) || decide (b.chromStart > a.chromEnd))

/-- A collection is genomically sorted when no element compares
`__lt__`-below an earlier one — the guarantee Python's sort gives for
the non-total `Interval.__lt__`. -/
def genomicallySorted : List Bed6 → Bool
  | [] => true
  | a :: rest => rest.all (fun b => !(Bed6.lt b a)) && genomicallySorted rest

/-- Stable insertion of `a` into an already-processed prefix: `a` is
placed before the first element it compares strictly below, hence after
all elements tied with it. -/
def pyInsert (lt : α → α → Bool) (a : α) : List α → List α
  | [] => [a]
  | b :: bs => if lt a b then a :: b :: bs else b :: pyInsert lt a bs

/-- Embedding of Python's stable `list.sort` as a left-fold stable
insertion sort.  For a sort keyed by a total order this produces exactly
Python's output (stable sorts under a total preorder agree); for the
non-total genomic comparison only permutation facts are used below. -/
def pySort (lt : α → α → Bool) (l : List α) : List α :=
  l.foldl (fun acc x => pyInsert lt x acc) []

/-- `extract_scores` from `normalize.py` with a functional field
selector in place of `attrgetter(field_name)`. -/
def extract_scores (objs : List Bed6) (f : Bed6 → Rat) : List Rat :=
  objs.map f

/-- Writing one `norm_score` value; `set_scores` is only ever invoked by
the pipeline with `field_name="norm_score"`. -/
def setNorm (p : Bed6) (x : Rat) : Bed6 :=
  { p with norm_score := x }

/-- `set_scores` from `normalize.py`: zips objects with scores (like the
Python `zip`, truncating at the shorter list) and writes each score into
`norm_score`. -/
def set_scores (objs : List Bed6) (scores : List Rat) : List Bed6 :=
  List.zipWith setNorm objs scores

/-- Round-half-even to an integer, the tie rule of Python's `round`. -/
def rhe (q : Rat) : Int :=
  if q - (⌊q⌋ : Rat) < 1 / 2 then ⌊q⌋
  else if (1 / 2 : Rat) < q - (⌊q⌋ : Rat) then ⌊q⌋ + 1
  else if ⌊q⌋ % 2 = 0 then ⌊q⌋ else ⌊q⌋ + 1

/-- Python `round(q, 5)`: round-half-even to the nearest multiple of
`10 ^ (-5)`. -/
def round5 (q : Rat) : Rat :=
  (rhe (q * 100000) : Rat) / 100000

/-- The `while` loop of `regular_pointmap`, with the loop state `last`
explicit.  In the exact-rational semantics the loop runs exactly `n`
iterations, so the structural fuel passed by `regular_pointmap` (`n + 1`)
never binds; `regular_pointmap_closed` below proves the closed form,
certifying this. -/
def regular_pointmap_go (dist e last : Rat) : Nat → List Rat
  | 0 => []
  | fuel + 1 =>
    if last + dist < e then round5 (last + dist) :: regular_pointmap_go dist e (last + dist) fuel
    else []

/-- `regular_pointmap(n)` from `normalize.py` with the default
`start=0.0, end=1.0, rounderr=5`. -/
def regular_pointmap (n : Nat) : List Rat :=
  regular_pointmap_go (1 / ((n : Rat) + 1)) 1 0 (n + 1)

/-- `normalize_peaks_map` from `normalize.py`: stable sort by the raw
score field, assign the `regular_pointmap` values in rank order, restore
genomic order. -/
def normalize_peaks_map (objs : List Bed6) (f : Bed6 → Rat) : List Bed6 :=
  let ranked := pySort (fun a b => decide (f a < f b)) objs
  let assigned := set_scores ranked (regular_pointmap ranked.length)
  pySort Bed6.lt assigned

/-- `normalize_peaks_none` from `normalize.py`: copy the raw score field
into `norm_score`, then restore genomic order. -/
def normalize_peaks_none (objs : List Bed6) (f : Bed6 → Rat) : List Bed6 :=
  pySort Bed6.lt (set_scores objs (extract_scores objs f))

/-- An open cluster of the selection loop in `selectFWPeaks.main`: the
focus record (head of `overlap_frame`, which the loop never displaces)
and the later members in arrival order. -/
def toFrame (c : Bed6 × List Bed6) : List Bed6 :=
  c.1 :: c.2

/-- Python `max` over a nonempty list, folded from a first value. -/
def pyMax (x : Rat) : List Rat → Rat
  | [] => x
  | y :: l => pyMax (max x y) l

/-- Python `list.index(m)`: the index of the first occurrence of `m`
(total here; the selection loop only queries values that occur). -/
def indexOf (m : Rat) : List Rat → Nat
  | [] => 0
  | y :: l => if y = m then 0 else indexOf m l + 1

/-- Closing a cluster in `selectFWPeaks.main`:
`scores = [p.norm_score for p in overlap_frame]`,
`max_idx = scores.index(max(scores))`, `overlap_frame[max_idx]`. -/
def pickMax (c : Bed6 × List Bed6) : Bed6 :=
  let scores := (toFrame c).map Bed6.norm_score
  let m := pyMax c.1.norm_score (c.2.map Bed6.norm_score)
  (toFrame c).getD (indexOf m scores) c.1

/-- The `while len(normalized_peaks) > 0` loop of `selectFWPeaks.main`,
returning the closed clusters in order.  A cluster is extended while its
focus `intersect`s the next unconsumed record; otherwise it is closed
and the next record begins a new cluster. -/
def clustersGo (c : Bed6 × List Bed6) : List Bed6 → List (Bed6 × List Bed6)
  | [] => [c]
  | r :: rest =>
    if c.1.intersect r then clustersGo (c.1, c.2 ++ [r]) rest
    else c :: clustersGo (r, []) rest

/-- The clusters formed by the selection loop on a record collection. -/
def selectClusters : List Bed6 → List (Bed6 × List Bed6)
  | [] => []
  | x :: rest => clustersGo (x, []) rest

/-- The selection stage of `selectFWPeaks.main` (lines 79–98): pop the
first record as focus — an `IndexError` on an empty collection — then
scan, and emit each closed cluster's first maximal-`norm_score` member. -/
def selectPeaks (l : List Bed6) : Except String (List Bed6) :=
  match l with
  | [] => Except.error "IndexError: pop from empty list"
  | x :: rest => Except.ok ((clustersGo (x, []) rest).map pickMax)

/-- The record constructed by `Bed6(*fields.strip().split())` in
`selectFWPeaks.main`: the dataclass binds the split substrings
positionally and performs no conversion, so every field — including the
coordinates — is a `str` at runtime, despite the `int` annotations. -/
structure RawBed6 where
  chrom : String
  chromStart : String
  chromEnd : String
  name : String
  score : String
  strand : String
deriving DecidableEq

/-- Python `str.split()` with no argument: split on whitespace runs,
discarding empty pieces. -/
def splitWsAux (cur : List Char) : List Char → List String
  | [] => if cur = [] then [] else [String.mk cur.reverse]
  | c :: rest =>
    if c.isWhitespace then
      if cur = [] then splitWsAux [] rest else String.mk cur.reverse :: splitWsAux [] rest
    else splitWsAux (c :: cur) rest

/-- `line.strip().split()` of `selectFWPeaks.main` (the `strip` is
subsumed: whitespace-run splitting already discards edge whitespace). -/
def pySplitWs (s : String) : List String :=
  splitWsAux [] s.data

/-- Parsing one `.bed` line as `selectFWPeaks.main` does:
`Bed6(*fields.strip().split())`.  A field count other than six raises
`TypeError` in Python (modelled as `none`). -/
def parseBed6Line (line : String) : Option RawBed6 :=
  match pySplitWs line with
  | [c, s, e, n, sc, st] => some (RawBed6.mk c s e n sc st)
  | _ => none

/-- `Interval.intersect` as it actually executes on records built by
`parseBed6Line`: the coordinate comparisons are Python `str`
comparisons, i.e. lexicographic. -/
def RawBed6.intersect (self other : RawBed6) : Bool :=
  if self.chrom ≠ other.chrom then true
  else !(pyStrLt other.chromEnd self.chromStart || pyStrLt self.chromEnd other.chromStart)

/-! Concrete record collections used to evaluate the code on specific
inputs. -/

/-- A record on `chr1`, all remaining fields inert. -/
def exChr1 : Bed6 :=
  { chrom := "chr1", chromStart := 0, chromEnd := 10, name := "A", score := 5, strand := "+" }

/-- A record on `chr2` occupying the same coordinates as `exChr1`. -/
def exChr2 : Bed6 :=
  { chrom := "chr2", chromStart := 0, chromEnd := 10, name := "B", score := 7, strand := "+" }

/-- Sorted, normalized three-record collection on one chromosome:
`[0,10)` with normalized score `1/4`, `[20,30)` with `1/2`, and the wide
`[5,1000)` with `3/4`. -/
def c3recA : Bed6 :=
  { chrom := "chr1", chromStart := 0, chromEnd := 10, name := "A", score := 1, strand := "+",
    norm_score := 1/4 }

/-- Second record of the three-record collection. -/
def c3recC : Bed6 :=
  { chrom := "chr1", chromStart := 20, chromEnd := 30, name := "C", score := 2, strand := "+",
    norm_score := 1/2 }

/-- Third record of the three-record collection: overlaps both others. -/
def c3recB : Bed6 :=
  { chrom := "chr1", chromStart := 5, chromEnd := 1000, name := "B", score := 3, strand := "+",
    norm_score := 3/4 }

/-- Four sorted, normalized records on two chromosomes. -/
def c6a1 : Bed6 :=
  { chrom := "chr1", chromStart := 0, chromEnd := 10, name := "a1", score := 1, strand := "+",
    norm_score := 1/5 }

/-- Second record: same chromosome as `c6a1`, far to its right. -/
def c6a2 : Bed6 :=
  { chrom := "chr1", chromStart := 100, chromEnd := 110, name := "a2", score := 2, strand := "+",
    norm_score := 3/10 }

/-- Third record: on `chr2`. -/
def c6b1 : Bed6 :=
  { chrom := "chr2", chromStart := 0, chromEnd := 10, name := "b1", score := 3, strand := "+",
    norm_score := 1/2 }

/-- Fourth record: on `chr2`, far right of `c6b1`. -/
def c6b2 : Bed6 :=
  { chrom := "chr2", chromStart := 1000, chromEnd := 1010, name := "b2", score := 4, strand := "+",
    norm_score := 2/5 }

/-- The `i`-th record of the large collection exercising
`regular_pointmap`'s 5-decimal rounding: pairwise disjoint intervals on
one chromosome in ascending genomic order, with raw score `i`. -/
def mkRec (i : Nat) : Bed6 :=
  { chrom := "chr1", chromStart := 1000 * (i : Int), chromEnd := 1000 * (i : Int) + 100,
    name := "p", score := (i : Rat), strand := "+" }

/-- 100000 records with distinct ascending raw scores `0, …, 99999`. -/
def bigInput : List Bed6 :=
  (List.range 100000).map mkRec

/-- The value `regular_pointmap n` assigns to rank `k` (1-based), in
closed form: `round(k / (n+1), 5)`. -/
def pmVal (n k : Nat) : Rat :=
  round5 ((k : Rat) / ((n : Rat) + 1))

end ATACtools

namespace ATACtools

/-! ### Properties of the stable-sort embedding -/

theorem pyInsert_perm (lt : α → α → Bool) (a : α) (l : List α) :
    List.Perm (pyInsert lt a l) (a :: l) := by
  induction l with
  | nil => simp [pyInsert]
  | cons b bs ih =>
    simp only [pyInsert]
    cases h : lt a b with
    | true => simp
    | false =>
      simp only [Bool.false_eq_true, if_false]
      exact (ih.cons b).trans (List.Perm.swap a b bs)

theorem pySort_go_perm (lt : α → α → Bool) (l : List α) :
    ∀ acc : List α, List.Perm (l.foldl (fun acc x => pyInsert lt x acc) acc) (acc ++ l) := by
  induction l with
  | nil => intro acc; simp
  | cons a l ih =>
    intro acc
    have h1 := ih (pyInsert lt a acc)
    have h2 : List.Perm (pyInsert lt a acc ++ l) ((a :: acc) ++ l) :=
      (pyInsert_perm lt a acc).append_right l
    refine (h1.trans (h2.trans ?_))
    have hm : List.Perm (acc ++ a :: l) (a :: (acc ++ l)) := List.perm_middle
    simpa using hm.symm

theorem pySort_perm (lt : α → α → Bool) (l : List α) :
    List.Perm (pySort lt l) l := by
  simpa [pySort] using pySort_go_perm lt l []

theorem pyInsert_of_not_lt (lt : α → α → Bool) (a : α) (l : List α)
    (h : ∀ b ∈ l, lt a b = false) : pyInsert lt a l = l ++ [a] := by
  induction l with
  | nil => simp [pyInsert]
  | cons b bs ih =>
    have hb : lt a b = false := h b (List.mem_cons_self b bs)
    simp only [pyInsert, hb, Bool.false_eq_true, if_false, List.cons_append, List.cons.injEq,
      true_and]
    exact ih (fun x hx => h x (List.mem_cons_of_mem b hx))

theorem pySort_go_of_sorted (lt : α → α → Bool) (l : List α) :
    ∀ acc : List α, (∀ x ∈ l, ∀ b ∈ acc, lt x b = false) →
      List.Pairwise (fun x y => lt y x = false) l →
      l.foldl (fun acc x => pyInsert lt x acc) acc = acc ++ l := by
  induction l with
  | nil => intro acc _ _; simp
  | cons a l ih =>
    intro acc hacc hpw
    have ha : pyInsert lt a acc = acc ++ [a] :=
      pyInsert_of_not_lt lt a acc (hacc a (List.mem_cons_self a l))
    have hpw' := (List.pairwise_cons.mp hpw)
    have step : ∀ x ∈ l, ∀ b ∈ acc ++ [a], lt x b = false := by
      intro x hx b hb
      rcases List.mem_append.mp hb with hb | hb
      · exact hacc x (List.mem_cons_of_mem a hx) b hb
      · rcases List.mem_singleton.mp hb with rfl
        exact hpw'.1 x hx
    calc (a :: l).foldl (fun acc x => pyInsert lt x acc) acc
        = l.foldl (fun acc x => pyInsert lt x acc) (pyInsert lt a acc) := rfl
      _ = (acc ++ [a]) ++ l := by rw [ha]; exact ih (acc ++ [a]) step hpw'.2
      _ = acc ++ a :: l := by simp

theorem pySort_of_sorted (lt : α → α → Bool) (l : List α)
    (h : List.Pairwise (fun x y => lt y x = false) l) : pySort lt l = l := by
  simpa [pySort] using pySort_go_of_sorted lt l [] (by intro x _ b hb; cases hb) h

/-! ### Properties of `set_scores` -/

theorem set_scores_map_self (objs : List Bed6) (f : Bed6 → Rat) :
    set_scores objs (objs.map f) = objs.map (fun o => setNorm o (f o)) := by
  induction objs with
  | nil => rfl
  | cons o objs ih => simpa [set_scores, List.zipWith] using ih

theorem set_scores_map_map (g : Nat → Bed6) (h : Nat → Rat) (l : List Nat) :
    set_scores (l.map g) (l.map h) = l.map (fun i => setNorm (g i) (h i)) := by
  induction l with
  | nil => rfl
  | cons i l ih => simp [set_scores, List.zipWith, ih]

/-! ### Properties of `pyMax`, `indexOf` and `pickMax` -/

theorem le_pyMax (x : Rat) (l : List Rat) : x ≤ pyMax x l := by
  induction l generalizing x with
  | nil => exact le_refl x
  | cons y l ih => exact le_trans (le_max_left x y) (ih (max x y))

theorem mem_le_pyMax (x : Rat) (l : List Rat) : ∀ y ∈ l, y ≤ pyMax x l := by
  induction l generalizing x with
  | nil => intro y hy; cases hy
  | cons z l ih =>
    intro y hy
    rcases List.mem_cons.mp hy with rfl | hy
    · exact le_trans (le_max_right x y) (le_pyMax (max x y) l)
    · exact ih (max x z) y hy

theorem pyMax_mem (x : Rat) (l : List Rat) : pyMax x l = x ∨ pyMax x l ∈ l := by
  induction l generalizing x with
  | nil => exact Or.inl rfl
  | cons y l ih =>
    rcases ih (max x y) with h | h
    · rcases max_choice x y with hm | hm
      · exact Or.inl (by rw [pyMax, h, hm])
      · exact Or.inr (by rw [pyMax, h, hm]; exact List.mem_cons_self y l)
    · exact Or.inr (List.mem_cons_of_mem y h)

theorem indexOf_lt_length (m : Rat) (l : List Rat) (h : m ∈ l) :
    indexOf m l < l.length := by
  induction l with
  | nil => cases h
  | cons y l ih =>
    by_cases hy : y = m
    · simp [indexOf, hy]
    · rcases List.mem_cons.mp h with hh | hh
      · exact absurd hh.symm hy
      · simpa [indexOf, hy] using ih hh

theorem getD_indexOf (m : Rat) (l : List Rat) (h : m ∈ l) (d : Rat) :
    l.getD (indexOf m l) d = m := by
  induction l with
  | nil => cases h
  | cons y l ih =>
    by_cases hy : y = m
    · simp [indexOf, hy]
    · rcases List.mem_cons.mp h with hh | hh
      · exact absurd hh.symm hy
      · simpa [indexOf, hy] using ih hh

theorem getD_before_indexOf (m : Rat) (l : List Rat) (d : Rat) :
    ∀ j, j < indexOf m l → l.getD j d ≠ m := by
  induction l with
  | nil => intro j hj; simp [indexOf] at hj
  | cons y l ih =>
    intro j hj
    by_cases hy : y = m
    · simp [indexOf, hy] at hj
    · cases j with
      | zero => simpa using hy
      | succ j =>
        simp only [indexOf, hy, if_false] at hj
        simpa using ih j (by omega)

theorem getD_map_fn (f : Bed6 → Rat) (l : List Bed6) (d : Bed6) :
    ∀ i, (l.map f).getD i (f d) = f (l.getD i d) := by
  induction l with
  | nil => intro i; simp
  | cons a l ih =>
    intro i
    cases i with
    | zero => simp
    | succ i => simp [ih i]

theorem getD_mem (l : List α) (d : α) : ∀ i, i < l.length → l.getD i d ∈ l := by
  induction l with
  | nil => intro i hi; simp at hi
  | cons a l ih =>
    intro i hi
    cases i with
    | zero => simp
    | succ i =>
      simp only [List.getD_cons_succ]
      exact List.mem_cons_of_mem a (ih i (by simpa using hi))

end ATACtools

namespace ATACtools

/-! ### Structure of the selection loop -/

theorem pyMax_mem_scores (c : Bed6 × List Bed6) :
    pyMax c.1.norm_score (c.2.map Bed6.norm_score) ∈ (toFrame c).map Bed6.norm_score := by
  rcases pyMax_mem c.1.norm_score (c.2.map Bed6.norm_score) with h | h
  · rw [h]; simp [toFrame]
  · simp only [toFrame, List.map_cons]
    exact List.mem_cons_of_mem _ h

theorem pickMax_eq_getD (c : Bed6 × List Bed6) :
    pickMax c = (toFrame c).getD
      (indexOf (pyMax c.1.norm_score (c.2.map Bed6.norm_score))
        ((toFrame c).map Bed6.norm_score)) c.1 := rfl

theorem indexOf_pickMax_lt (c : Bed6 × List Bed6) :
    indexOf (pyMax c.1.norm_score (c.2.map Bed6.norm_score)) ((toFrame c).map Bed6.norm_score) <
      (toFrame c).length := by
  have h := indexOf_lt_length _ _ (pyMax_mem_scores c)
  simpa using h

theorem pickMax_mem_frame (c : Bed6 × List Bed6) : pickMax c ∈ toFrame c := by
  rw [pickMax_eq_getD]
  exact getD_mem _ _ _ (indexOf_pickMax_lt c)

theorem pickMax_norm_eq (c : Bed6 × List Bed6) :
    (pickMax c).norm_score = pyMax c.1.norm_score (c.2.map Bed6.norm_score) := by
  have hmem := pyMax_mem_scores c
  have h1 := getD_map_fn Bed6.norm_score (toFrame c)
    c.1 (indexOf (pyMax c.1.norm_score (c.2.map Bed6.norm_score)) ((toFrame c).map Bed6.norm_score))
  rw [pickMax_eq_getD, ← h1, getD_indexOf _ _ hmem]

theorem pickMax_is_max (c : Bed6 × List Bed6) :
    ∀ r ∈ toFrame c, r.norm_score ≤ (pickMax c).norm_score := by
  intro r hr
  rw [pickMax_norm_eq]
  rcases List.mem_cons.mp hr with rfl | hr
  · exact le_pyMax _ _
  · exact mem_le_pyMax _ _ _ (List.mem_map_of_mem Bed6.norm_score hr)

theorem pickMax_first_tie (c : Bed6 × List Bed6) :
    ∃ i, i < (toFrame c).length ∧ (toFrame c).getD i c.1 = pickMax c ∧
      ∀ j, j < i → ((toFrame c).getD j c.1).norm_score < (pickMax c).norm_score := by
  refine ⟨indexOf (pyMax c.1.norm_score (c.2.map Bed6.norm_score))
    ((toFrame c).map Bed6.norm_score), indexOf_pickMax_lt c, (pickMax_eq_getD c).symm, ?_⟩
  intro j hj
  have hjlen : j < (toFrame c).length := lt_trans hj (indexOf_pickMax_lt c)
  have hne := getD_before_indexOf (pyMax c.1.norm_score (c.2.map Bed6.norm_score))
    ((toFrame c).map Bed6.norm_score) (Bed6.norm_score c.1) j hj
  rw [getD_map_fn Bed6.norm_score (toFrame c) c.1 j] at hne
  have hle : ((toFrame c).getD j c.1).norm_score ≤ (pickMax c).norm_score :=
    pickMax_is_max c _ (getD_mem _ _ _ hjlen)
  rw [pickMax_norm_eq]
  rw [pickMax_norm_eq] at hle
  exact lt_of_le_of_ne hle hne

theorem clustersGo_ne_nil (rest : List Bed6) : ∀ c, clustersGo c rest ≠ [] := by
  induction rest with
  | nil => intro c; simp [clustersGo]
  | cons r rest ih =>
    intro c
    simp only [clustersGo]
    by_cases h : c.1.intersect r = true
    · simpa [h] using ih (c.1, c.2 ++ [r])
    · simp [h]

theorem clustersGo_head_fst (rest : List Bed6) :
    ∀ c, ∃ cs tail, clustersGo c rest = (c.1, cs) :: tail := by
  induction rest with
  | nil => intro c; exact ⟨c.2, [], rfl⟩
  | cons r rest ih =>
    intro c
    by_cases h : c.1.intersect r = true
    · rcases ih (c.1, c.2 ++ [r]) with ⟨cs, tail, heq⟩
      exact ⟨cs, tail, by simpa [clustersGo, h] using heq⟩
    · exact ⟨c.2, clustersGo (r, []) rest, by simp [clustersGo, h]⟩

theorem clustersGo_flatten (rest : List Bed6) :
    ∀ c, ((clustersGo c rest).map toFrame).flatten = toFrame c ++ rest := by
  induction rest with
  | nil => intro c; simp [clustersGo]
  | cons r rest ih =>
    intro c
    by_cases h : c.1.intersect r = true
    · have := ih (c.1, c.2 ++ [r])
      simp only [clustersGo, h, if_true]
      rw [this]
      simp [toFrame]
    · simp only [clustersGo, h, Bool.false_eq_true, if_false, List.map_cons, List.flatten_cons]
      rw [ih (r, [])]
      simp [toFrame]

theorem clustersGo_chain (rest : List Bed6) :
    ∀ c, List.Chain' (fun x y : Bed6 × List Bed6 => x.1.intersect y.1 = false)
      (clustersGo c rest) := by
  induction rest with
  | nil => intro c; simp [clustersGo]
  | cons r rest ih =>
    intro c
    by_cases h : c.1.intersect r = true
    · simpa [clustersGo, h] using ih (c.1, c.2 ++ [r])
    · simp only [clustersGo, h, Bool.false_eq_true, if_false]
      rw [List.chain'_cons']
      constructor
      · intro d hd
        rcases clustersGo_head_fst rest (r, []) with ⟨cs, tail, heq⟩
        rw [heq] at hd
        simp only [List.head?_cons, Option.mem_def, Option.some.injEq] at hd
        rw [← hd]
        simpa using h
      · exact ih (r, [])

theorem frames_length_le (frames : List (Bed6 × List Bed6)) :
    frames.length ≤ ((frames.map toFrame).flatten).length := by
  induction frames with
  | nil => simp
  | cons c fs ih =>
    simp only [List.map_cons, List.flatten_cons, List.length_append, List.length_cons, toFrame]
    omega

end ATACtools

namespace ATACtools

/-! ### Closed form of `regular_pointmap` -/

theorem regular_pointmap_go_closed (n : Nat) :
    ∀ (j k : Nat), k + j = n →
      regular_pointmap_go (1 / ((n : Rat) + 1)) 1 ((k : Rat) / ((n : Rat) + 1)) (j + 1) =
        (List.range' (k + 1) j).map (pmVal n) := by
  have hpos : (0 : Rat) < (n : Rat) + 1 := by positivity
  intro j
  induction j with
  | zero =>
    intro k hk
    have hk' : k = n := by omega
    subst hk'
    have hsum : (k : Rat) / ((k : Rat) + 1) + 1 / ((k : Rat) + 1) = 1 := by
      rw [div_add_div_same, div_self (ne_of_gt hpos)]
    have hns : ¬ ((k : Rat) / ((k : Rat) + 1) + 1 / ((k : Rat) + 1) < 1) := by
      rw [hsum]
      exact lt_irrefl 1
    rw [regular_pointmap_go, if_neg hns]
    simp
  | succ j ih =>
    intro k hk
    have hklt : (k : Rat) + 1 < (n : Rat) + 1 := by
      have hle : k + 1 ≤ n := by omega
      have h2 : ((k + 1 : Nat) : Rat) ≤ (n : Rat) := Nat.cast_le.mpr hle
      push_cast at h2
      linarith
    have hsum : (k : Rat) / ((n : Rat) + 1) + 1 / ((n : Rat) + 1) =
        ((k : Rat) + 1) / ((n : Rat) + 1) := by
      rw [div_add_div_same]
    have hcond : ((k : Rat) + 1) / ((n : Rat) + 1) < 1 := by
      rw [div_lt_one hpos]
      exact hklt
    have hcast : (k : Rat) + 1 = ((k + 1 : Nat) : Rat) := by push_cast; ring
    have hrec := ih (k + 1) (by omega)
    rw [regular_pointmap_go, hsum, if_pos hcond, hcast, hrec, List.range'_succ (k + 1) j 1]
    simp [pmVal]

theorem regular_pointmap_closed (n : Nat) :
    regular_pointmap n = (List.range' 1 n).map (pmVal n) := by
  have h := regular_pointmap_go_closed n n 0 (by omega)
  simpa [regular_pointmap, zero_add] using h

theorem regular_pointmap_length (n : Nat) : (regular_pointmap n).length = n := by
  rw [regular_pointmap_closed]
  simp

end ATACtools

namespace ATACtools

/-! ### The 5-decimal rounding collision of `regular_pointmap` -/

theorem bigInput_score_sorted :
    pySort (fun a b => decide (Bed6.score a < Bed6.score b)) bigInput = bigInput := by
  apply pySort_of_sorted
  rw [bigInput, List.pairwise_map]
  refine (List.pairwise_lt_range 100000).imp ?_
  intro i j hij
  have hn : ¬ ((mkRec j).score < (mkRec i).score) := by
    simp only [mkRec]
    exact not_lt.mpr (by exact_mod_cast Nat.le_of_lt hij)
  exact decide_eq_false hn

theorem bigInput_length : bigInput.length = 100000 := by
  simp [bigInput]

theorem c4_assigned :
    set_scores bigInput (regular_pointmap 100000) =
      (List.range 100000).map (fun i => setNorm (mkRec i) (pmVal 100000 (1 + i))) := by
  rw [regular_pointmap_closed, List.range'_eq_map_range, List.map_map, bigInput,
    set_scores_map_map]
  rfl

theorem rhe_lo : rhe ((5000000000 : Rat) / 100001) = 50000 := by
  have hf : ⌊(5000000000 : Rat) / 100001⌋ = 49999 := by norm_num [Int.floor_eq_iff]
  rw [rhe, hf]
  norm_num

theorem rhe_hi : rhe ((5000100000 : Rat) / 100001) = 50000 := by
  have hf : ⌊(5000100000 : Rat) / 100001⌋ = 50000 := by norm_num [Int.floor_eq_iff]
  rw [rhe, hf]
  norm_num

theorem pmVal_collision : pmVal 100000 50000 = 1 / 2 ∧ pmVal 100000 50001 = 1 / 2 := by
  constructor
  · have h1 : ((50000 : Rat) / ((100000 : Nat) + 1)) * 100000 = 5000000000 / 100001 := by
      norm_num
    rw [pmVal, round5]
    push_cast
    push_cast at h1
    rw [h1, rhe_lo]
    norm_num
  · have h1 : ((50001 : Rat) / ((100000 : Nat) + 1)) * 100000 = 5000100000 / 100001 := by
      norm_num
    rw [pmVal, round5]
    push_cast
    push_cast at h1
    rw [h1, rhe_hi]
    norm_num

theorem c4_normalize_unfold :
    normalize_peaks_map bigInput Bed6.score =
      pySort Bed6.lt ((List.range 100000).map (fun i => setNorm (mkRec i) (pmVal 100000 (1 + i)))) := by
  simp only [normalize_peaks_map]
  rw [bigInput_score_sorted, bigInput_length, c4_assigned]

end ATACtools

namespace ATACtools

/-! ### Claim theorems -/

/-- Claim C1: the claim states that `intersect(a, b)` returns false
whenever `a.chrom ≠ b.chrom`.  The code does the opposite: on two
records that differ only in chromosome (`chr1` vs `chr2`),
`Interval.intersect` literally returns `True`, contradicting the claim,
the source's own comment, and the spec's documented overlap test
(`spec_intersects`), which returns false here. -/
theorem claim_C1 :
    exChr1.chrom ≠ exChr2.chrom ∧ Bed6.intersect exChr1 exChr2 = true ∧
      spec_intersects exChr1 exChr2 = false := by
  refine ⟨by decide, by decide, by decide⟩

/-- Claim C2: the claim states that the Selector terminates normally
with empty output on an empty record collection.  The code instead
executes `normalized_peaks.pop(0)` unconditionally, which raises
`IndexError` on an empty list; the embedding returns that error. -/
theorem claim_C2 :
    selectPeaks ([] : List Bed6) = Except.error "IndexError: pop from empty list" := rfl

/-- Claim C5: the claim states that records constructed from input lines
carry integer coordinates compared numerically.  The script constructs
`Bed6(*fields.strip().split())` with no conversion, so coordinates stay
strings and every coordinate comparison is lexicographic: the parsed
records for `[100,200)` and `[20,30)` on one chromosome are numerically
disjoint (`spec_intersects` on the integer reading is false), yet the
runtime `intersect` on the string fields returns true, because
`"30" < "100"` is false lexicographically while `30 < 100` holds. -/
theorem claim_C5 :
    parseBed6Line "chr1 100 200 A 5 +" = some (RawBed6.mk "chr1" "100" "200" "A" "5" "+") ∧
    parseBed6Line "chr1 20 30 B 7 +" = some (RawBed6.mk "chr1" "20" "30" "B" "7" "+") ∧
    RawBed6.intersect (RawBed6.mk "chr1" "100" "200" "A" "5" "+")
      (RawBed6.mk "chr1" "20" "30" "B" "7" "+") = true ∧
    spec_intersects
      { chrom := "chr1", chromStart := 100, chromEnd := 200, name := "A", score := 5, strand := "+" }
      { chrom := "chr1", chromStart := 20, chromEnd := 30, name := "B", score := 7, strand := "+" }
      = false ∧
    pyStrLt "30" "100" = false ∧ (30 : Int) < 100 := by
  refine ⟨by decide, by decide, by decide, by decide, by decide, by decide⟩

/-- Claim C9: under the natural chromosome key, `chr2` sorts strictly
before `chr10` and `chr1` strictly before `chrX` (confirmed on
`Interval.__lt__` with equal coordinates), digit runs are recoded to
integers and compared as such, non-digit runs compare lower-cased, and
plain lexicographic string comparison disagrees on `chr2` vs `chr10`. -/
theorem claim_C9 :
    prep_chrom_comp "chr2" = [ChromToken.str "chr", ChromToken.num 2, ChromToken.str ""] ∧
    prep_chrom_comp "chr10" = [ChromToken.str "chr", ChromToken.num 10, ChromToken.str ""] ∧
    prep_chrom_comp "ChrX" = [ChromToken.str "chrx"] ∧
    Bed6.lt { exChr1 with chrom := "chr2" } { exChr1 with chrom := "chr10" } = true ∧
    Bed6.lt { exChr1 with chrom := "chr10" } { exChr1 with chrom := "chr2" } = false ∧
    Bed6.lt { exChr1 with chrom := "chr1" } { exChr1 with chrom := "chrX" } = true ∧
    Bed6.lt { exChr1 with chrom := "chrX" } { exChr1 with chrom := "chr1" } = false ∧
    tokLt (ChromToken.num 2) (ChromToken.num 10) = true ∧
    pyStrLt "chr2" "chr10" = false := by
  refine ⟨by decide, by decide, by decide, by decide, by decide, by decide, by decide,
    by decide, by decide⟩

/-- Claim C3 counterexample: on the genomically sorted, normalized
collection `[ [0,10)@1/4, [20,30)@1/2, [5,1000)@3/4 ]` the Selector
emits `[0,10)` and `[5,1000)`, two distinct records on the same
chromosome whose ranges overlap — refuting the claimed pairwise
non-overlap of the output.  (The wide record wins the second cluster but
extends left across the first cluster's record.) -/
theorem claim_C3_counterexample :
    genomicallySorted [c3recA, c3recC, c3recB] = true ∧
    (∀ r ∈ [c3recA, c3recC, c3recB], 0 < r.norm_score ∧ r.norm_score < 1) ∧
    selectPeaks [c3recA, c3recC, c3recB] = Except.ok [c3recA, c3recB] ∧
    c3recA ≠ c3recB ∧ c3recA.chrom = c3recB.chrom ∧ spec_intersects c3recA c3recB = true := by
  refine ⟨by decide, ?_, ?_, ?_, rfl, by decide⟩
  · intro r hr
    simp only [List.mem_cons, List.not_mem_nil, or_false] at hr
    rcases hr with rfl | rfl | rfl
    · constructor <;> norm_num [c3recA]
    · constructor <;> norm_num [c3recC]
    · constructor <;> norm_num [c3recB]
  · norm_num [selectPeaks, clustersGo, Bed6.intersect, pickMax, toFrame, pyMax, indexOf,
      c3recA, c3recB, c3recC]
  · simp [c3recA, c3recB]

/-- Claim C3 (amended): what the greedy loop does guarantee is that each
cluster's focus record fails the code's overlap test against the next
cluster's focus; the pairwise non-overlap of all output records does not
hold, because a cluster's winner can extend past its focus and overlap
later output (see the counterexample). -/
theorem claim_C3 (l : List Bed6) :
    List.Chain' (fun c d : Bed6 × List Bed6 => c.1.intersect d.1 = false) (selectClusters l) := by
  cases l with
  | nil => simp [selectClusters]
  | cons x rest => exact clustersGo_chain rest (x, [])

/-- Claim C6: the claim states the Selector is idempotent on its own
output.  On the sorted, normalized four-record collection below the
first run outputs two genomically non-overlapping records on different
chromosomes; because `Interval.intersect` reports records on different
chromosomes as overlapping, the second run merges them into one cluster
and returns only one record — not the same set. -/
theorem claim_C6 :
    genomicallySorted [c6a1, c6a2, c6b1, c6b2] = true ∧
    (∀ r ∈ [c6a1, c6a2, c6b1, c6b2], 0 < r.norm_score ∧ r.norm_score < 1) ∧
    selectPeaks [c6a1, c6a2, c6b1, c6b2] = Except.ok [c6a1, c6b1] ∧
    spec_intersects c6a1 c6b1 = false ∧
    selectPeaks [c6a1, c6b1] = Except.ok [c6b1] ∧
    [c6b1] ≠ [c6a1, c6b1] := by
  refine ⟨by decide, ?_, ?_, by decide, ?_, ?_⟩
  · intro r hr
    simp only [List.mem_cons, List.not_mem_nil, or_false] at hr
    rcases hr with rfl | rfl | rfl | rfl
    · constructor <;> norm_num [c6a1]
    · constructor <;> norm_num [c6a2]
    · constructor <;> norm_num [c6b1]
    · constructor <;> norm_num [c6b2]
  · have hs : ("chr1" = "chr2") = False := by simp
    norm_num [selectPeaks, clustersGo, Bed6.intersect, pickMax, toFrame, pyMax, indexOf,
      c6a1, c6a2, c6b1, c6b2, hs]
  · have hs : ("chr1" = "chr2") = False := by simp
    norm_num [selectPeaks, clustersGo, Bed6.intersect, pickMax, toFrame, pyMax, indexOf,
      c6a1, c6b1, hs]
  · simp

end ATACtools

namespace ATACtools

/-- Claim C4: the claim states that after `"map"` normalization all
`norm_score` values are strictly rank-preserving (and lie in `(0,1)`,
with count preserved).  Rounding each point to five decimals
(`rounderr=5` in `regular_pointmap`) breaks strict rank preservation as
soon as the collection has 100000 records: on `bigInput` (distinct raw
scores `0, …, 99999`) the records of raw scores 49999 and 50000 both
receive `norm_score = 1/2`, because `round(50000/100001, 5)` and
`round(50001/100001, 5)` coincide. -/
theorem claim_C4 :
    ∃ x ∈ normalize_peaks_map bigInput Bed6.score,
      ∃ y ∈ normalize_peaks_map bigInput Bed6.score,
        x.score < y.score ∧ ¬ x.norm_score < y.norm_score := by
  have hperm := pySort_perm Bed6.lt
    ((List.range 100000).map (fun i => setNorm (mkRec i) (pmVal 100000 (1 + i))))
  have hx : setNorm (mkRec 49999) (pmVal 100000 50000) ∈
      normalize_peaks_map bigInput Bed6.score := by
    rw [c4_normalize_unfold]
    apply hperm.mem_iff.mpr
    refine List.mem_map.mpr ⟨49999, List.mem_range.mpr (by norm_num), ?_⟩
    norm_num
  have hy : setNorm (mkRec 50000) (pmVal 100000 50001) ∈
      normalize_peaks_map bigInput Bed6.score := by
    rw [c4_normalize_unfold]
    apply hperm.mem_iff.mpr
    refine List.mem_map.mpr ⟨50000, List.mem_range.mpr (by norm_num), ?_⟩
    norm_num
  refine ⟨_, hx, _, hy, ?_, ?_⟩
  · show (setNorm (mkRec 49999) (pmVal 100000 50000)).score <
      (setNorm (mkRec 50000) (pmVal 100000 50001)).score
    simp only [setNorm, mkRec]
    norm_num
  · show ¬ (setNorm (mkRec 49999) (pmVal 100000 50000)).norm_score <
      (setNorm (mkRec 50000) (pmVal 100000 50001)).norm_score
    simp only [setNorm]
    rw [pmVal_collision.1, pmVal_collision.2]
    exact lt_irrefl _

/-- Claim C7: whenever the selection loop closes a cluster, the emitted
record (`pickMax`) is a member of that cluster, no member of the cluster
has a strictly greater `norm_score`, and every member occurring before
the emitted one in the cluster has a strictly smaller `norm_score`
(first occurrence wins ties); the Selector's output is exactly the
emitted record of each cluster in order. -/
theorem claim_C7 (x : Bed6) (rest : List Bed6) :
    selectPeaks (x :: rest) = Except.ok ((selectClusters (x :: rest)).map pickMax) ∧
    ∀ c ∈ selectClusters (x :: rest),
      pickMax c ∈ toFrame c ∧
      (∀ r ∈ toFrame c, r.norm_score ≤ (pickMax c).norm_score) ∧
      ∃ i, i < (toFrame c).length ∧ (toFrame c).getD i c.1 = pickMax c ∧
        ∀ j, j < i → ((toFrame c).getD j c.1).norm_score < (pickMax c).norm_score := by
  refine ⟨rfl, ?_⟩
  intro c _
  exact ⟨pickMax_mem_frame c, pickMax_is_max c, pickMax_first_tie c⟩

/-- Witness for C7, instantiated at a one-record collection. -/
theorem claim_C7_witness :
    selectPeaks [exChr1] = Except.ok ((selectClusters [exChr1]).map pickMax) ∧
    ∀ c ∈ selectClusters [exChr1],
      pickMax c ∈ toFrame c ∧
      (∀ r ∈ toFrame c, r.norm_score ≤ (pickMax c).norm_score) ∧
      ∃ i, i < (toFrame c).length ∧ (toFrame c).getD i c.1 = pickMax c ∧
        ∀ j, j < i → ((toFrame c).getD j c.1).norm_score < (pickMax c).norm_score :=
  claim_C7 exChr1 []

/-- Claim C8: after `"none"` normalization every record's `norm_score`
equals its raw score read through the caller-specified field selector
(any selector that reads only raw fields, i.e. is insensitive to
`norm_score`), and the multiset of records with raw fields intact —
`norm_score` reset to the sentinel — is exactly that of the input. -/
theorem claim_C8 (objs : List Bed6) (f : Bed6 → Rat)
    (hf : ∀ p x, f (setNorm p x) = f p) :
    (∀ r ∈ normalize_peaks_none objs f, r.norm_score = f r) ∧
    List.Perm ((normalize_peaks_none objs f).map (fun r => setNorm r (-1)))
      (objs.map (fun r => setNorm r (-1))) := by
  have hset : set_scores objs (extract_scores objs f) = objs.map (fun o => setNorm o (f o)) := by
    rw [extract_scores, set_scores_map_self]
  constructor
  · intro r hr
    rw [normalize_peaks_none, hset] at hr
    have hr2 := (pySort_perm Bed6.lt _).mem_iff.mp hr
    rcases List.mem_map.mp hr2 with ⟨o, _, rfl⟩
    rw [hf]
    rfl
  · rw [normalize_peaks_none, hset]
    refine ((pySort_perm Bed6.lt _).map _).trans ?_
    rw [List.map_map]
    rfl

/-- Witness for C8, instantiated at a one-record collection with the
BED6 `score` field selector. -/
theorem claim_C8_witness :
    (∀ r ∈ normalize_peaks_none [exChr1] Bed6.score, r.norm_score = Bed6.score r) ∧
    List.Perm ((normalize_peaks_none [exChr1] Bed6.score).map (fun r => setNorm r (-1)))
      ([exChr1].map (fun r => setNorm r (-1))) :=
  claim_C8 [exChr1] Bed6.score (fun _ _ => rfl)

/-- Claim C10: on any non-empty collection the Selector succeeds, its
output is non-empty, no longer than the input, and consists only of
input records (records are selected, never constructed or altered). -/
theorem claim_C10 (x : Bed6) (rest : List Bed6) :
    ∃ out, selectPeaks (x :: rest) = Except.ok out ∧ out ≠ [] ∧
      out.length ≤ (x :: rest).length ∧ ∀ r ∈ out, r ∈ x :: rest := by
  refine ⟨(clustersGo (x, []) rest).map pickMax, rfl, ?_, ?_, ?_⟩
  · simpa using clustersGo_ne_nil rest (x, [])
  · have h2 := frames_length_le (clustersGo (x, []) rest)
    rw [clustersGo_flatten rest (x, [])] at h2
    simpa [toFrame] using h2
  · intro r hr
    rcases List.mem_map.mp hr with ⟨c, hc, rfl⟩
    have hmem : pickMax c ∈ ((clustersGo (x, []) rest).map toFrame).flatten :=
      List.mem_flatten.mpr ⟨toFrame c, List.mem_map_of_mem toFrame hc, pickMax_mem_frame c⟩
    rw [clustersGo_flatten rest (x, [])] at hmem
    simpa [toFrame] using hmem

/-- Witness for C10, instantiated at a one-record collection. -/
theorem claim_C10_witness :
    ∃ out, selectPeaks [exChr2] = Except.ok out ∧ out ≠ [] ∧
      out.length ≤ [exChr2].length ∧ ∀ r ∈ out, r ∈ [exChr2] :=
  claim_C10 exChr2 []

end ATACtools
